import Mathlib

/-!
Shallow embedding of the forecast aggregation pipeline of the
Washington ski-weather web app: the slot aggregator and metric
registry (`js/data/forecastTransformer.js`, `js/config/metrics.js`)
and the interval distributor / merge step of the weather API module.

Modelling conventions:
* JS numbers are embedded as exact rationals (`ℚ`); the single
  non-finite value reachable in the pipeline (NaN, produced by adding
  `undefined` to a number) is a dedicated constructor.  Coercion
  behaviour of JS operators on value shapes that no extraction or
  aggregation of this program produces (for instance strings in
  numeric positions) is not modelled.
* Timestamps are epoch milliseconds as `Nat`; the local-time `Date`
  accessors (`getHours`, `setHours`, `getDay`, ...) are modelled for a
  fixed whole-hour UTC offset folded into the timestamp, so calendar
  arithmetic is plain arithmetic modulo the day length.
* A JS `Map` is modelled as an association list in insertion order.
-/

/-- The closed set of runtime value shapes flowing through the
aggregation pipeline: `null`, `undefined`, numbers (with NaN set
apart), strings, and the structured wind value `{speed, direction}`.
The `wind` fields hold embedded JS values so that absent (`undef`) and
`null` properties are representable. -/
inductive JSVal where
  | null : JSVal
  | undef : JSVal
  | nan : JSVal
  | num : ℚ → JSVal
  | str : String → JSVal
  | wind : JSVal → JSVal → JSVal
deriving DecidableEq, Repr

namespace JSVal

/-- Property access `v.speed`; `undefined` on shapes without the property. -/
def getSpeed : JSVal → JSVal
  | wind s _ => s
  | _ => undef

/-- Property access `v.direction`; `undefined` on shapes without the property. -/
def getDirection : JSVal → JSVal
  | wind _ d => d
  | _ => undef

/-- The filter `v !== null && v !== undefined` used by the aggregator. -/
def keepV : JSVal → Bool
  | null => false
  | undef => false
  | _ => true

/-- The filter `s !== null` (keeps `undefined`). -/
def notNullV : JSVal → Bool
  | null => false
  | _ => true

/-- `typeof v === 'number'` (`NaN` is a number in JS). -/
def isNumber : JSVal → Bool
  | num _ => true
  | nan => true
  | _ => false

/-- The wind-branch test `typeof v === 'object' && 'speed' in v`. -/
def isWindLike : JSVal → Bool
  | wind _ _ => true
  | _ => false

/-- JS `+` on the value shapes reachable inside the numeric reductions:
number plus number adds; any other operand (in the pipeline: only
`undefined` or `NaN`) poisons the sum to NaN. -/
def jsAdd : JSVal → JSVal → JSVal
  | num a, num b => num (a + b)
  | _, _ => nan

/-- JS division of a reduced sum by a length.  The zero-length case is
unreachable (every call site guards on a nonempty list). -/
def jsDivNat : JSVal → Nat → JSVal
  | num q, n => if n = 0 then nan else num (q / n)
  | _, _ => nan

end JSVal

open JSVal

/-- The rational values of a JS value list, in order. -/
def numsOf (l : List JSVal) : List ℚ :=
  l.filterMap (fun v => match v with | JSVal.num q => some q | _ => none)

/-- `Math.round`: round half toward positive infinity. -/
def jsRound (q : ℚ) : Int := ⌊q + 1/2⌋

/-- One NOAA hourly forecast period.  `startTime` is the parsed epoch
millisecond value of the record's ISO start string; the two amount
fields are populated (wrapped in `some`) by the merge step. -/
structure HourlyRecord where
  startTime : Nat
  temperature : Option ℚ
  windSpeed : Option String
  windDirection : Option String
  probabilityOfPrecipitation : Option (Option ℚ)
  shortForecast : Option String
  snowfallAmount : Option ℚ
  precipAmount : Option ℚ
deriving DecidableEq, Repr

/-- A 4-hour slot as built by `groupIntoSlots`. -/
structure Slot where
  startTime : Nat
  label : String
  timeLabel : String
  dayLabel : String
  periods : List HourlyRecord
deriving DecidableEq, Repr

def defRecord : HourlyRecord := ⟨0, none, none, none, none, none, none, none⟩

def defSlot : Slot := ⟨0, "", "", "", []⟩

/-! ### Date accessors (fixed-offset local time) -/

def msPerHour : Nat := 3600000
def msPerDay : Nat := 86400000

/-- `date.getHours()`. -/
def getHoursOfMs (t : Nat) : Nat := t % msPerDay / msPerHour

/-- `date.getDay()` (day of week, 0 = Sunday; 1970-01-01 was a Thursday). -/
def getDayOfWeek (t : Nat) : Nat := (t / msPerDay + 4) % 7

/-- `date.setHours(h, 0, 0, 0)`: same calendar day, hour `h`,
minutes/seconds/milliseconds zeroed. -/
def setHoursZeroed (t : Nat) (h : Nat) : Nat := t - t % msPerDay + h * msPerHour

def dayNames : List String := ["Sun", "Mon", "Tue", "Wed", "Thu", "Fri", "Sat"]

/-- Civil date `(year, month, day)` from a day count since 1970-01-01
(Hinnant's algorithm, valid for all days after the epoch). -/
def civilOfDays (z0 : Nat) : Nat × Nat × Nat :=
  let z := z0 + 719468
  let era := z / 146097
  let doe := z % 146097
  let yoe := (doe - doe / 1460 + doe / 36524 - doe / 146096) / 365
  let y := yoe + era * 400
  let doy := doe - (365 * yoe + yoe / 4 - yoe / 100)
  let mp := (5 * doy + 2) / 153
  let d := doy - (153 * mp + 2) / 5 + 1
  let m := if mp < 10 then mp + 3 else mp - 9
  (if m ≤ 2 then y + 1 else y, m, d)

/-- `formatSlotLabel`: e.g. "Mon 8AM". -/
def formatSlotLabel (t : Nat) : String :=
  let day := dayNames.getD (getDayOfWeek t) ""
  let h := getHoursOfMs t
  let ampm := if h ≥ 12 then "PM" else "AM"
  let h12 := if h % 12 = 0 then 12 else h % 12
  day ++ " " ++ toString h12 ++ ampm

/-- `formatTimeLabel`: e.g. "8AM". -/
def formatTimeLabel (t : Nat) : String :=
  let h := getHoursOfMs t
  let ampm := if h ≥ 12 then "PM" else "AM"
  let h12 := if h % 12 = 0 then 12 else h % 12
  toString h12 ++ ampm

/-- `formatDayLabel`: e.g. "Mon (1/7)". -/
def formatDayLabel (t : Nat) : String :=
  let dayName := dayNames.getD (getDayOfWeek t) ""
  let c := civilOfDays (t / msPerDay)
  dayName ++ " (" ++ toString c.2.1 ++ "/" ++ toString c.2.2 ++ ")"

/-! ### forecastTransformer.js -/

def HOURS_PER_SLOT : Nat := 4
def SLOTS_PER_DAY : Nat := 6
def DAYS_TO_SHOW : Nat := 5
def TOTAL_SLOTS : Nat := SLOTS_PER_DAY * DAYS_TO_SHOW

/-- Distinct values of a list in first-occurrence order: the key set of
the JS `Map` built by `getMode`, in its insertion order. -/
def firstOccs {α} [DecidableEq α] : List α → List α
  | [] => []
  | v :: vs => v :: (firstOccs vs).filter (fun w => w ≠ v)

/-- `getMode`: most common value; the `counts.forEach` scan keeps the
first-encountered value among those of maximal count (later values
replace the current best only on a strictly greater count). -/
def getMode (arr : List JSVal) : JSVal :=
  match arr.filter keepV with
  | [] => JSVal.null
  | v0 :: rest =>
    ((firstOccs (v0 :: rest)).foldl
      (fun acc value =>
        if (v0 :: rest).count value > acc.2 then (value, (v0 :: rest).count value) else acc)
      (v0, 0)).1

/-- `average`: mean of the numeric entries, `null` when there are none. -/
def average (arr : List JSVal) : JSVal :=
  let filtered := arr.filter (fun v => keepV v && isNumber v)
  if filtered.isEmpty then JSVal.null
  else jsDivNat (filtered.foldl jsAdd (JSVal.num 0)) filtered.length

/-- `sumValues`: sum of the numeric entries, `null` when there are none. -/
def sumValues (arr : List JSVal) : JSVal :=
  let filtered := arr.filter (fun v => keepV v && isNumber v)
  if filtered.isEmpty then JSVal.null
  else filtered.foldl jsAdd (JSVal.num 0)

/-- `aggregateValues`: type-directed reduction of one slot's extracted
values. -/
def aggregateValues (values : List JSVal) (aggregateMode : Option String) : JSVal :=
  if values.isEmpty then JSVal.null else
  match values.filter keepV with
  | [] => JSVal.null
  | v0 :: rest =>
    if isWindLike v0 then
      let speeds := ((v0 :: rest).map getSpeed).filter notNullV
      let directions := ((v0 :: rest).map getDirection).filter notNullV
      JSVal.wind
        (if speeds.length > 0 then jsDivNat (speeds.foldl jsAdd (JSVal.num 0)) speeds.length
         else JSVal.null)
        (getMode directions)
    else
      let numericValues := (v0 :: rest).filter isNumber
      if numericValues.length = (v0 :: rest).length then
        if aggregateMode = some "sum" then sumValues values else average values
      else getMode values

/-- The wind branch of `aggregateValues`, applied to the null-filtered
value list. -/
def windAggregate (filtered : List JSVal) : JSVal :=
  let speeds := (filtered.map getSpeed).filter notNullV
  let directions := (filtered.map getDirection).filter notNullV
  JSVal.wind
    (if speeds.length > 0 then jsDivNat (speeds.foldl jsAdd (JSVal.num 0)) speeds.length
     else JSVal.null)
    (getMode directions)

/-- Body of the slot loop of `groupIntoSlots`: the slot with index `i`
relative to the anchor `slotStart`. -/
def buildSlot (periods : List HourlyRecord) (slotStart : Nat) (i : Nat) : Slot :=
  let slotStartTime := slotStart + i * (HOURS_PER_SLOT * 60 * 60 * 1000)
  let slotEndTime := slotStartTime + HOURS_PER_SLOT * 60 * 60 * 1000
  { startTime := slotStartTime
    label := formatSlotLabel slotStartTime
    timeLabel := formatTimeLabel slotStartTime
    dayLabel := formatDayLabel slotStartTime
    periods := periods.filter (fun p =>
      slotStartTime ≤ p.startTime ∧ p.startTime < slotEndTime) }

/-- `groupIntoSlots`: bucket the hourly periods into `TOTAL_SLOTS`
4-hour windows anchored at the first period's hour rounded down to a
multiple of `HOURS_PER_SLOT`. -/
def groupIntoSlots (periods : List HourlyRecord) : List Slot :=
  match periods with
  | [] => []
  | p0 :: _ =>
    let startHour := getHoursOfMs p0.startTime / HOURS_PER_SLOT * HOURS_PER_SLOT
    let slotStart := setHoursZeroed p0.startTime startHour
    (List.range TOTAL_SLOTS).map (buildSlot periods slotStart)

/-- A metric definition: id, labels, extraction, optional aggregation
mode (`some "sum"` for accumulating quantities), unit-aware format. -/
structure Metric where
  id : String
  label : String
  unit : String
  extract : HourlyRecord → JSVal
  aggregate : Option String
  format : JSVal → String

def defMetric : Metric := ⟨"", "", "", fun _ => JSVal.null, none, fun _ => ""⟩

/-- One `{label, value, formattedValue}` cell of `extractMetricValues`. -/
structure AggEntry where
  label : String
  value : JSVal
  formattedValue : String
deriving DecidableEq, Repr

/-- `extractMetricValues`: per-slot extraction, aggregation, formatting. -/
def extractMetricValues (slots : List Slot) (metric : Metric) : List AggEntry :=
  slots.map (fun slot =>
    let values := slot.periods.map metric.extract
    let aggregatedValue := aggregateValues values metric.aggregate
    { label := slot.label
      value := aggregatedValue
      formattedValue := metric.format aggregatedValue })

/-- Result shape of `transformForecast`; the JS object `metricData` is
an association list from metric id to its 30-entry column. -/
structure ForecastResult where
  slots : List Slot
  metricData : List (String × List AggEntry)

/-- `transformForecast`: full pipeline from periods to the slot grid. -/
def transformForecast (periods : List HourlyRecord) (metrics : List Metric) :
    ForecastResult :=
  let slots := groupIntoSlots periods
  { slots := slots
    metricData := metrics.map (fun m => (m.id, extractMetricValues slots m)) }

/-! ### weatherApi.js: interval distributor and merge step -/

/-- Numeric value of a digit run. -/
def digitsToNat (ds : List Char) : Nat := ds.foldl (fun a c => a * 10 + (c.toNat - 48)) 0

/-- Attempt of the regex `PT(\d+)H` at the current position.  The greedy
digit run needs no backtracking here: a shortened run is followed by a
digit, which can never match `H`. -/
def matchPTH : List Char → Option Nat
  | 'P' :: 'T' :: rest =>
    let ds := rest.takeWhile Char.isDigit
    if ds.isEmpty then none
    else
      match rest.dropWhile Char.isDigit with
      | 'H' :: _ => some (digitsToNat ds)
      | _ => none
  | _ => none

/-- Left-to-right search of `PT(\d+)H` in the string. -/
def searchPTH : List Char → Option Nat
  | [] => none
  | c :: cs =>
    match matchPTH (c :: cs) with
    | some n => some n
    | none => searchPTH cs

/-- `parseDurationHours`: hours of an ISO-8601 duration, defaulting to 1
when the pattern does not occur. -/
def parseDurationHours (duration : String) : Nat :=
  match searchPTH duration.data with
  | some n => n
  | none => 1

/-- One entry of a NOAA quantitative time series.  The JS `validTime`
string is modelled pre-split at its `/`: `start` is the epoch
millisecond value of the ISO prefix, `duration` the suffix. -/
structure TSEntry where
  start : Nat
  duration : String
  value : Option ℚ
deriving DecidableEq, Repr

/-- `hourlyMap.set(k, (hourlyMap.get(k) || 0) + v)` on the
insertion-ordered association list modelling the JS `Map`. -/
def mapBump (m : List (Nat × ℚ)) (k : Nat) (v : ℚ) : List (Nat × ℚ) :=
  let newVal := (List.lookup k m).getD 0 + v
  if m.any (fun p => p.1 = k) then
    m.map (fun p => if p.1 = k then (k, newVal) else p)
  else m ++ [(k, newVal)]

/-- Distribution of one time-series entry over its hours. -/
def distEntry (m : List (Nat × ℚ)) (e : TSEntry) : List (Nat × ℚ) :=
  let hours := parseDurationHours e.duration
  let perHourValue := (e.value.getD 0) / (hours : ℚ)
  (List.range hours).foldl
    (fun m h => mapBump m (e.start + h * 3600000) perHourValue) m

/-- `distributeTimeSeries`: per-hour quantity map of a series; an absent
(`undefined`) series yields the empty map. -/
def distributeTimeSeries : Option (List TSEntry) → List (Nat × ℚ)
  | none => []
  | some values => values.foldl distEntry []

/-- The two quantitative series of the raw gridpoint data, each already
projected to its `values` array (absent when the field is missing). -/
structure GridData where
  snowfallAmount : Option (List TSEntry)
  quantitativePrecipitation : Option (List TSEntry)

/-- `mergePrecipData`, in the fresh-records formulation: each period's
amount fields are set from the maps at the period's exact start
timestamp, defaulting to 0. -/
def mergePrecipData (periods : List HourlyRecord) (gridData : GridData) :
    List HourlyRecord :=
  let snowMap := distributeTimeSeries gridData.snowfallAmount
  let precipMap := distributeTimeSeries gridData.quantitativePrecipitation
  periods.map (fun period =>
    { period with
      snowfallAmount := some ((List.lookup period.startTime snowMap).getD 0)
      precipAmount := some ((List.lookup period.startTime precipMap).getD 0) })

/-! ### config/metrics.js: metric registry -/

/-- `fToC` on numbers; the JS helper's null passthrough is exercised
only behind the formats' own null checks. -/
def fToC (f : ℚ) : ℚ := (f - 32) * 5 / 9

/-- `mphToKmh` on numbers. -/
def mphToKmh (mph : ℚ) : ℚ := mph * 1.60934

/-- `ftToM` on numbers. -/
def ftToM (ft : ℚ) : ℚ := ft * 0.3048

/-- First maximal digit run of a string (the match of `/(\d+)/`). -/
def firstDigitRun : List Char → Option (List Char)
  | [] => none
  | c :: cs =>
    if c.isDigit then some (c :: cs.takeWhile Char.isDigit) else firstDigitRun cs

/-- `s.match(/(\d+)/)` followed by `parseInt`. -/
def parseLeadingInt (s : String) : Option Nat := (firstDigitRun s.data).map digitsToNat

/-- Prefix test on character lists. -/
def startsWithChars : List Char → List Char → Bool
  | [], _ => true
  | _ :: _, [] => false
  | p :: ps, c :: cs => p = c && startsWithChars ps cs

/-- Occurrence test of a pattern anywhere in a character list. -/
def infixChars (pat : List Char) : List Char → Bool
  | [] => pat.isEmpty
  | c :: cs => startsWithChars pat (c :: cs) || infixChars pat cs

/-- `s.includes(pat)`. -/
def containsSub (s pat : String) : Bool := infixChars pat.data s.data

def jsOfNumOpt : Option ℚ → JSVal
  | none => JSVal.null
  | some q => JSVal.num q

def jsOfStrOpt : Option String → JSVal
  | none => JSVal.null
  | some s => JSVal.str s

/-- The wind-speed extraction: leading integer of the free-text speed. -/
def parseWindSpeed : Option String → JSVal
  | none => JSVal.null
  | some s =>
    match parseLeadingInt s with
    | some n => JSVal.num (n : ℚ)
    | none => JSVal.null

/-- The conditions keyword-to-icon mapping (first match wins), falling
back to the raw text. -/
def conditionIcon (value : String) : String :=
  let lower := value.toLower
  if containsSub lower "thunder" then "⛈️"
  else if containsSub lower "blizzard" then "🌨️"
  else if containsSub lower "snow" && containsSub lower "rain" then "🌨️🌧️"
  else if containsSub lower "freezing rain" || containsSub lower "sleet" then "🌧️❄️"
  else if containsSub lower "snow" then "❄️"
  else if containsSub lower "rain" || containsSub lower "showers" then "🌧️"
  else if containsSub lower "fog" || containsSub lower "mist" then "🌫️"
  else if containsSub lower "partly cloudy" || containsSub lower "partly sunny" then "⛅"
  else if containsSub lower "mostly cloudy" then "🌥️"
  else if containsSub lower "cloud" || containsSub lower "overcast" then "☁️"
  else if containsSub lower "sunny" || containsSub lower "clear" then "☀️"
  else if containsSub lower "wind" then "💨"
  else value

def chunk3 : List Char → List (List Char)
  | [] => []
  | [a] => [[a]]
  | [a, b] => [[a, b]]
  | a :: b :: c :: rest => [a, b, c] :: chunk3 rest

/-- Digit grouping of `toLocaleString()` for integers. -/
def groupDigits (s : String) : String :=
  let chunks := (chunk3 s.data.reverse).map List.reverse
  String.intercalate "," (chunks.reverse.map (fun cs => String.mk cs))

/-- `n.toLocaleString()` for integers (en-US grouping). -/
def toLocaleStr (n : Int) : String :=
  if n < 0 then "-" ++ groupDigits (toString n.natAbs) else groupDigits (toString n.natAbs)

/-- The snow-level estimate from temperature shared by the registry
variants. -/
def snowLevelExtract (temperature : Option ℚ) : JSVal :=
  match temperature with
  | none => JSVal.null
  | some temp =>
    if temp ≤ 32 then JSVal.num 0
    else JSVal.num (max 0 (min 10000 (5000 + (temp - 32) * 200)))

/-- `getMetrics` of the unit-aware registry variant present in the
sources (five metrics; the wind object carries only `speed`). -/
def getMetrics (unitSystem : String := "imperial") : List Metric :=
  let isMetric := unitSystem == "metric"
  [ { id := "temperature"
      label := if isMetric then "Temperature (C)" else "Temperature (F)"
      unit := if isMetric then "°C" else "°F"
      extract := fun period => jsOfNumOpt period.temperature
      aggregate := none
      format := fun value =>
        match value with
        | JSVal.null => "—"
        | JSVal.num q => toString (jsRound (if isMetric then fToC q else q)) ++ "°"
        | _ => "NaN°" },
    { id := "wind"
      label := if isMetric then "Wind (km/h)" else "Wind (mph)"
      unit := if isMetric then "km/h" else "mph"
      extract := fun period => JSVal.wind (parseWindSpeed period.windSpeed) JSVal.undef
      aggregate := none
      format := fun value =>
        match value with
        | JSVal.wind (JSVal.num q) _ =>
          toString (jsRound (if isMetric then mphToKmh q else q))
        | JSVal.wind JSVal.null _ => "—"
        | JSVal.null => "—"
        | JSVal.undef => "—"
        | _ => "NaN" },
    { id := "precipitation-chance"
      label := "Precip Chance"
      unit := "%"
      extract := fun period =>
        match period.probabilityOfPrecipitation with
        | none => JSVal.null
        | some none => JSVal.null
        | some (some q) => JSVal.num q
      aggregate := none
      format := fun value =>
        match value with
        | JSVal.null => "—"
        | JSVal.num q => toString (jsRound q) ++ "%"
        | _ => "NaN%" },
    { id := "conditions"
      label := "Conditions"
      unit := ""
      extract := fun period => jsOfStrOpt period.shortForecast
      aggregate := none
      format := fun value =>
        match value with
        | JSVal.str s => if s = "" then "—" else conditionIcon s
        | _ => "—" },
    { id := "snow-level"
      label := if isMetric then "Snow Level (m)" else "Snow Level (ft)"
      unit := if isMetric then "m" else "ft"
      extract := fun period => snowLevelExtract period.temperature
      aggregate := none
      format := fun value =>
        match value with
        | JSVal.null => "—"
        | JSVal.num q => toLocaleStr (jsRound (if isMetric then ftToM q else q))
        | _ => "NaN" } ]

def metricAt (u : String) (i : Nat) : Metric := (getMetrics u).getD i defMetric

/-- Modelled from the spec: the current `js/config/metrics.js` imported
by `main.js` — the canonical seven-metric, unit-aware, sum-capable
registry — is not among the provided source files (only superseded
five-metric variants are).  This definition follows the spec's §4.4
table: the first five metrics as in the unit-aware source variant but
with the wind extraction pairing the parsed speed with the record's
wind-direction text (`period.windDirection || null`), plus snow amount
and rain amount reading the merged millimeter fields (converted to the
unit system's native unit, taken as inches for imperial) and declaring
sum aggregation. -/
def getMetricsCanonical (unitSystem : String := "imperial") : List Metric :=
  let isMetric := unitSystem == "metric"
  [ { id := "temperature"
      label := if isMetric then "Temperature (C)" else "Temperature (F)"
      unit := if isMetric then "°C" else "°F"
      extract := fun period => jsOfNumOpt period.temperature
      aggregate := none
      format := fun value =>
        match value with
        | JSVal.null => "—"
        | JSVal.num q => toString (jsRound (if isMetric then fToC q else q)) ++ "°"
        | _ => "NaN°" },
    { id := "wind"
      label := if isMetric then "Wind (km/h)" else "Wind (mph)"
      unit := if isMetric then "km/h" else "mph"
      extract := fun period =>
        JSVal.wind (parseWindSpeed period.windSpeed)
          (match period.windDirection with
           | none => JSVal.null
           | some d => if d = "" then JSVal.null else JSVal.str d)
      aggregate := none
      format := fun value =>
        match value with
        | JSVal.wind (JSVal.num q) _ =>
          toString (jsRound (if isMetric then mphToKmh q else q))
        | JSVal.wind JSVal.null _ => "—"
        | JSVal.null => "—"
        | JSVal.undef => "—"
        | _ => "NaN" },
    { id := "precipitation-chance"
      label := "Precip Chance"
      unit := "%"
      extract := fun period =>
        match period.probabilityOfPrecipitation with
        | none => JSVal.null
        | some none => JSVal.null
        | some (some q) => JSVal.num q
      aggregate := none
      format := fun value =>
        match value with
        | JSVal.null => "—"
        | JSVal.num q => toString (jsRound q) ++ "%"
        | _ => "NaN%" },
    { id := "conditions"
      label := "Conditions"
      unit := ""
      extract := fun period => jsOfStrOpt period.shortForecast
      aggregate := none
      format := fun value =>
        match value with
        | JSVal.str s => if s = "" then "—" else conditionIcon s
        | _ => "—" },
    { id := "snow-level"
      label := if isMetric then "Snow Level (m)" else "Snow Level (ft)"
      unit := if isMetric then "m" else "ft"
      extract := fun period => snowLevelExtract period.temperature
      aggregate := none
      format := fun value =>
        match value with
        | JSVal.null => "—"
        | JSVal.num q => toLocaleStr (jsRound (if isMetric then ftToM q else q))
        | _ => "NaN" },
    { id := "snow-amount"
      label := if isMetric then "Snow (mm)" else "Snow (in)"
      unit := if isMetric then "mm" else "in"
      extract := fun period =>
        match period.snowfallAmount with
        | none => JSVal.null
        | some mm => JSVal.num (if isMetric then mm else mm / 25.4)
      aggregate := some "sum"
      format := fun value =>
        match value with
        | JSVal.null => "—"
        | JSVal.num q => toString (jsRound q)
        | _ => "NaN" },
    { id := "rain-amount"
      label := if isMetric then "Rain (mm)" else "Rain (in)"
      unit := if isMetric then "mm" else "in"
      extract := fun period =>
        match period.precipAmount with
        | none => JSVal.null
        | some mm => JSVal.num (if isMetric then mm else mm / 25.4)
      aggregate := some "sum"
      format := fun value =>
        match value with
        | JSVal.null => "—"
        | JSVal.num q => toString (jsRound q)
        | _ => "NaN" } ]

def metricCanonAt (u : String) (i : Nat) : Metric :=
  (getMetricsCanonical u).getD i defMetric

/-! ### Specification-side characterizations of the distributor -/

/-- Whether hour-key `k` is one of the `hours` consecutive keys
`start, start + 1h, ...` written by entry `e`. -/
def coversEntry (e : TSEntry) (k : Nat) : Bool :=
  decide (e.start ≤ k) && decide ((k - e.start) % 3600000 = 0)
    && decide ((k - e.start) / 3600000 < parseDurationHours e.duration)

/-- The per-hour contribution of entry `e` to hour-key `k`. -/
def contribOf (e : TSEntry) (k : Nat) : ℚ :=
  if coversEntry e k then (e.value.getD 0) / (parseDurationHours e.duration : ℚ) else 0

/-- Total of all values stored in an hourly quantity map. -/
def sumVals (m : List (Nat × ℚ)) : ℚ := (m.map (fun p => p.2)).sum

/-! ### Lemmas about the mode computation -/

section ModeLemmas

variable {α : Type} [DecidableEq α]

lemma mem_firstOccs {a : α} : ∀ {l : List α}, a ∈ firstOccs l ↔ a ∈ l := by
  intro l
  induction l with
  | nil => simp [firstOccs]
  | cons v vs ih =>
    simp only [firstOccs, List.mem_cons, List.mem_filter]
    constructor
    · rintro (rfl | ⟨h1, _⟩)
      · exact Or.inl rfl
      · exact Or.inr (ih.mp h1)
    · rintro (rfl | h)
      · exact Or.inl rfl
      · by_cases hv : a = v
        · exact Or.inl hv
        · exact Or.inr ⟨ih.mpr h, by simpa using hv⟩

lemma pairwise_firstOccs :
    ∀ l : List α, (firstOccs l).Pairwise (fun a b => l.indexOf a < l.indexOf b) := by
  intro l
  induction l with
  | nil => simp [firstOccs]
  | cons v vs ih =>
    rw [firstOccs]
    refine List.pairwise_cons.mpr ⟨?_, ?_⟩
    · intro b hb
      rw [List.mem_filter] at hb
      have hbv : b ≠ v := by simpa using hb.2
      rw [List.indexOf_cons_self, List.indexOf_cons_ne _ (Ne.symm hbv)]
      exact Nat.succ_pos _
    · refine List.Pairwise.imp_of_mem ?_ (ih.filter _)
      intro a b ha hb hab
      rw [List.mem_filter] at ha hb
      have hav : a ≠ v := by simpa using ha.2
      have hbv : b ≠ v := by simpa using hb.2
      rw [List.indexOf_cons_ne _ (Ne.symm hav), List.indexOf_cons_ne _ (Ne.symm hbv)]
      exact Nat.succ_lt_succ hab

omit [DecidableEq α] in
lemma fold_argmax (c : α → Nat) :
    ∀ (ks : List α) (b : α) (n : Nat) (r : α × Nat),
      ks.foldl (fun acc k => if c k > acc.2 then (k, c k) else acc) (b, n) = r →
      (r = (b, n) ∧ ∀ k ∈ ks, c k ≤ n) ∨
      (∃ pre post, ks = pre ++ r.1 :: post ∧ r.2 = c r.1 ∧ n < c r.1 ∧
        (∀ k ∈ pre, c k < c r.1) ∧ (∀ k ∈ post, c k ≤ c r.1)) := by
  intro ks
  induction ks with
  | nil =>
    intro b n r h
    simp only [List.foldl_nil] at h
    exact Or.inl ⟨h.symm, by simp⟩
  | cons k ks ih =>
    intro b n r h
    simp only [List.foldl_cons] at h
    by_cases hk : c k > n
    · rw [if_pos hk] at h
      rcases ih k (c k) r h with ⟨hr, hall⟩ | ⟨pre, post, hks, hr2, hlt, hpre, hpost⟩
      · subst hr
        refine Or.inr ⟨[], ks, rfl, rfl, hk, by simp, ?_⟩
        intro k' hk'
        exact hall k' hk'
      · refine Or.inr ⟨k :: pre, post, ?_, hr2, ?_, ?_, hpost⟩
        · rw [hks]; rfl
        · exact lt_trans hk hlt
        · intro k' hk'
          rcases List.mem_cons.mp hk' with rfl | hk'
          · exact hlt
          · exact hpre k' hk'
    · rw [if_neg hk] at h
      have hkle : c k ≤ n := Nat.le_of_not_lt hk
      rcases ih b n r h with ⟨hr, hall⟩ | ⟨pre, post, hks, hr2, hlt, hpre, hpost⟩
      · refine Or.inl ⟨hr, ?_⟩
        intro k' hk'
        rcases List.mem_cons.mp hk' with rfl | hk'
        · exact hkle
        · exact hall k' hk'
      · refine Or.inr ⟨k :: pre, post, ?_, hr2, hlt, ?_, hpost⟩
        · rw [hks]; rfl
        · intro k' hk'
          rcases List.mem_cons.mp hk' with rfl | hk'
          · exact lt_of_le_of_lt hkle hlt
          · exact hpre k' hk'

end ModeLemmas

/-- The three defining properties of `getMode` on a list whose
null-filtering is nonempty: the result occurs in the filtered list, has
maximal multiplicity there, and among the values of maximal
multiplicity it is the first-encountered one. -/
lemma getMode_spec (arr : List JSVal) (v0 : JSVal) (rest : List JSVal)
    (h : arr.filter keepV = v0 :: rest) :
    getMode arr ∈ v0 :: rest
    ∧ (∀ w ∈ v0 :: rest, (v0 :: rest).count w ≤ (v0 :: rest).count (getMode arr))
    ∧ (∀ w ∈ v0 :: rest, (v0 :: rest).count w = (v0 :: rest).count (getMode arr) →
        (v0 :: rest).indexOf (getMode arr) ≤ (v0 :: rest).indexOf w) := by
  have hg0 : getMode arr =
      ((firstOccs (v0 :: rest)).foldl
        (fun acc value =>
          if (v0 :: rest).count value > acc.2 then (value, (v0 :: rest).count value) else acc)
        (v0, 0)).1 := by
    rw [getMode, h]
  generalize hfold :
    (firstOccs (v0 :: rest)).foldl
      (fun acc value =>
        if (v0 :: rest).count value > acc.2 then (value, (v0 :: rest).count value) else acc)
      (v0, 0) = r at hg0
  rcases fold_argmax (fun value => (v0 :: rest).count value) (firstOccs (v0 :: rest)) v0 0
      r hfold with ⟨hr, hall⟩ | ⟨pre, post, hks, hr2, hlt, hpre, hpost⟩
  · exfalso
    have hv0 : v0 ∈ firstOccs (v0 :: rest) := by
      rw [firstOccs]; exact List.mem_cons_self _ _
    have := hall v0 hv0
    have hpos : 0 < (v0 :: rest).count v0 :=
      List.count_pos_iff.mpr (List.mem_cons_self _ _)
    omega
  · have hmode : getMode arr ∈ firstOccs (v0 :: rest) := by
      rw [hg0, hks]
      exact List.mem_append.mpr (Or.inr (List.mem_cons_self _ _))
    have hmem : getMode arr ∈ v0 :: rest := mem_firstOccs.mp hmode
    refine ⟨hmem, ?_, ?_⟩
    · intro w hw
      have hwk : w ∈ firstOccs (v0 :: rest) := mem_firstOccs.mpr hw
      rw [hks] at hwk
      rcases List.mem_append.mp hwk with hwpre | hwmid
      · exact le_of_lt (by rw [hg0]; exact hpre w hwpre)
      · rcases List.mem_cons.mp hwmid with heq | hwpost
        · rw [hg0, heq]
        · rw [hg0]; exact hpost w hwpost
    · intro w hw hcnt
      have hwk : w ∈ firstOccs (v0 :: rest) := mem_firstOccs.mpr hw
      rw [hks] at hwk
      rcases List.mem_append.mp hwk with hwpre | hwmid
      · exfalso
        have := hpre w hwpre
        rw [← hg0] at this
        omega
      · rcases List.mem_cons.mp hwmid with heq | hwpost
        · rw [hg0, heq]
        · have hpw := pairwise_firstOccs (v0 :: rest)
          rw [hks] at hpw
          rcases List.pairwise_append.mp hpw with ⟨_, hmidpw, _⟩
          rcases List.pairwise_cons.mp hmidpw with ⟨hhead, _⟩
          have := hhead w hwpost
          rw [hg0]
          exact le_of_lt this

/-! ### Lemmas about the numeric and wind aggregation branches -/

lemma foldl_jsAdd_num (l : List ℚ) :
    ∀ a : ℚ, (l.map JSVal.num).foldl jsAdd (JSVal.num a) = JSVal.num (a + l.sum) := by
  induction l with
  | nil => intro a; simp [jsAdd]
  | cons q qs ih =>
    intro a
    simp only [List.map_cons, List.foldl_cons]
    have hstep : jsAdd (JSVal.num a) (JSVal.num q) = JSVal.num (a + q) := rfl
    rw [hstep, ih, List.sum_cons, add_assoc]

lemma filter_keep_of_nums (values : List JSVal)
    (h2 : ∀ v ∈ values, v = JSVal.null ∨ v = JSVal.undef ∨ ∃ q, v = JSVal.num q) :
    values.filter keepV = (numsOf values).map JSVal.num := by
  induction values with
  | nil => rfl
  | cons v vs ih =>
    have hrest : ∀ w ∈ vs, w = JSVal.null ∨ w = JSVal.undef ∨ ∃ q, w = JSVal.num q :=
      fun w hw => h2 w (List.mem_cons.mpr (Or.inr hw))
    rcases h2 v (List.mem_cons_self _ _) with rfl | rfl | ⟨q, rfl⟩ <;>
      simpa [numsOf, List.filterMap_cons, keepV] using ih hrest

lemma filter_keepnum_of_nums (values : List JSVal)
    (h2 : ∀ v ∈ values, v = JSVal.null ∨ v = JSVal.undef ∨ ∃ q, v = JSVal.num q) :
    values.filter (fun v => keepV v && isNumber v) = (numsOf values).map JSVal.num := by
  induction values with
  | nil => rfl
  | cons v vs ih =>
    have hrest : ∀ w ∈ vs, w = JSVal.null ∨ w = JSVal.undef ∨ ∃ q, w = JSVal.num q :=
      fun w hw => h2 w (List.mem_cons.mpr (Or.inr hw))
    rcases h2 v (List.mem_cons_self _ _) with rfl | rfl | ⟨q, rfl⟩ <;>
      simpa [numsOf, List.filterMap_cons, keepV, isNumber] using ih hrest

lemma sumValues_of_nums (values : List JSVal)
    (h2 : ∀ v ∈ values, v = JSVal.null ∨ v = JSVal.undef ∨ ∃ q, v = JSVal.num q)
    (q0 : ℚ) (qs : List ℚ) (hq : numsOf values = q0 :: qs) :
    sumValues values = JSVal.num (numsOf values).sum := by
  have hf := filter_keepnum_of_nums values h2
  simp only [sumValues, hf, hq, List.map_cons, List.isEmpty_cons, Bool.false_eq_true,
    if_false]
  rw [show (JSVal.num q0 :: (qs.map JSVal.num)) = ((q0 :: qs).map JSVal.num) from rfl,
    foldl_jsAdd_num, zero_add]

lemma average_of_nums (values : List JSVal)
    (h2 : ∀ v ∈ values, v = JSVal.null ∨ v = JSVal.undef ∨ ∃ q, v = JSVal.num q)
    (q0 : ℚ) (qs : List ℚ) (hq : numsOf values = q0 :: qs) :
    average values = JSVal.num ((numsOf values).sum / ((numsOf values).length : ℚ)) := by
  have hf := filter_keepnum_of_nums values h2
  simp only [average, hf, hq, List.map_cons, List.isEmpty_cons, Bool.false_eq_true,
    if_false]
  rw [show (JSVal.num q0 :: (qs.map JSVal.num)) = ((q0 :: qs).map JSVal.num) from rfl,
    foldl_jsAdd_num, zero_add]
  simp [jsDivNat]

lemma agg_of_all_null (values : List JSVal) (m : Option String)
    (h : values.filter keepV = []) : aggregateValues values m = JSVal.null := by
  cases values with
  | nil => rfl
  | cons v vs => simp [aggregateValues, h]

lemma agg_num_sum (values : List JSVal)
    (h2 : ∀ v ∈ values, v = JSVal.null ∨ v = JSVal.undef ∨ ∃ q, v = JSVal.num q)
    (q0 : ℚ) (qs : List ℚ) (hq : numsOf values = q0 :: qs) :
    aggregateValues values (some "sum") = JSVal.num (numsOf values).sum := by
  have hf := filter_keep_of_nums values h2
  cases values with
  | nil => simp [numsOf] at hq
  | cons v vs =>
    rw [hq] at hf
    simp only [aggregateValues, List.isEmpty_cons, Bool.false_eq_true, if_false, hf,
      List.map_cons]
    have hwl : isWindLike (JSVal.num q0) = false := rfl
    rw [hwl]
    simp only [Bool.false_eq_true, if_false]
    have hfa : (JSVal.num q0 :: (qs.map JSVal.num)).filter isNumber
        = JSVal.num q0 :: (qs.map JSVal.num) := by
      rw [List.filter_eq_self]
      intro a ha
      rcases List.mem_cons.mp ha with rfl | ha
      · rfl
      · rcases List.mem_map.mp ha with ⟨q, _, rfl⟩
        rfl
    rw [hfa]
    simp only [if_pos rfl, if_true]
    exact sumValues_of_nums (v :: vs) h2 q0 qs hq

lemma agg_num_avg (values : List JSVal) (m : Option String)
    (h2 : ∀ v ∈ values, v = JSVal.null ∨ v = JSVal.undef ∨ ∃ q, v = JSVal.num q)
    (q0 : ℚ) (qs : List ℚ) (hq : numsOf values = q0 :: qs) (hm : m ≠ some "sum") :
    aggregateValues values m
      = JSVal.num ((numsOf values).sum / ((numsOf values).length : ℚ)) := by
  have hf := filter_keep_of_nums values h2
  cases values with
  | nil => simp [numsOf] at hq
  | cons v vs =>
    rw [hq] at hf
    simp only [aggregateValues, List.isEmpty_cons, Bool.false_eq_true, if_false, hf,
      List.map_cons]
    have hwl : isWindLike (JSVal.num q0) = false := rfl
    rw [hwl]
    simp only [Bool.false_eq_true, if_false]
    have hfa : (JSVal.num q0 :: (qs.map JSVal.num)).filter isNumber
        = JSVal.num q0 :: (qs.map JSVal.num) := by
      rw [List.filter_eq_self]
      intro a ha
      rcases List.mem_cons.mp ha with rfl | ha
      · rfl
      · rcases List.mem_map.mp ha with ⟨q, _, rfl⟩
        rfl
    rw [hfa]
    simp only [if_pos rfl, if_true, if_neg hm]
    exact average_of_nums (v :: vs) h2 q0 qs hq

lemma agg_wind (values : List JSVal) (m : Option String) (v0 : JSVal) (rest : List JSVal)
    (h : values.filter keepV = v0 :: rest) (hw : isWindLike v0 = true) :
    aggregateValues values m = windAggregate (v0 :: rest) := by
  cases values with
  | nil => simp at h
  | cons v vs => simp [aggregateValues, windAggregate, h, hw]

lemma agg_mode (values : List JSVal) (m : Option String) (v0 : JSVal) (rest : List JSVal)
    (h : values.filter keepV = v0 :: rest) (hw : isWindLike v0 = false)
    (w0 : JSVal) (hw0 : w0 ∈ v0 :: rest) (hw0n : isNumber w0 = false) :
    aggregateValues values m = getMode values := by
  cases values with
  | nil => simp at h
  | cons v vs =>
    simp only [aggregateValues, List.isEmpty_cons, Bool.false_eq_true, if_false, h, hw]
    have hlt : ((v0 :: rest).filter isNumber).length < (v0 :: rest).length := by
      refine List.length_filter_lt_length_iff_exists.mpr ?_
      exact ⟨w0, hw0, by simp [hw0n]⟩
    rw [if_neg (by omega)]

/-! ### Lemmas about the hourly quantity map -/

lemma lookup_eq_none_of_keys_ne {k : Nat} {m : List (Nat × ℚ)}
    (h : ∀ p ∈ m, p.1 ≠ k) : List.lookup k m = none := by
  refine List.lookup_eq_none_iff.mpr ?_
  intro p hp
  exact bne_iff_ne.mpr (fun he => h p hp he.symm)

lemma lookup_append_single_self {k : Nat} {w : ℚ} {m : List (Nat × ℚ)}
    (h : List.lookup k m = none) : List.lookup k (m ++ [(k, w)]) = some w := by
  rw [List.lookup_append, h, List.lookup_cons_self]
  rfl

lemma lookup_append_single_ne {k k' : Nat} {w : ℚ} (h : k' ≠ k)
    (m : List (Nat × ℚ)) : List.lookup k' (m ++ [(k, w)]) = List.lookup k' m := by
  rw [List.lookup_append]
  have hbe : (k' == k) = false := beq_eq_false_iff_ne.mpr h
  rw [List.lookup_cons, hbe]
  rw [List.lookup_nil]
  cases List.lookup k' m <;> rfl

lemma lookup_map_replace_self {k : Nat} {u : ℚ} :
    ∀ {m : List (Nat × ℚ)}, m.any (fun p => p.1 = k) = true →
      List.lookup k (m.map (fun p => if p.1 = k then (k, u) else p)) = some u := by
  intro m
  induction m with
  | nil => intro h; simp at h
  | cons p rest ih =>
    intro h
    obtain ⟨k1, v1⟩ := p
    by_cases hk : k1 = k
    · subst hk
      rw [List.map_cons]
      have hhead : (if ((k1, v1) : Nat × ℚ).1 = k1 then ((k1, u) : Nat × ℚ) else (k1, v1))
          = (k1, u) := if_pos rfl
      rw [hhead, List.lookup_cons_self]
    · have hrest : rest.any (fun p => p.1 = k) = true := by
        simpa [List.any_cons, hk] using h
      rw [List.map_cons]
      have hhead : (if ((k1, v1) : Nat × ℚ).1 = k then ((k, u) : Nat × ℚ) else (k1, v1))
          = (k1, v1) := if_neg hk
      have hbe : (k == k1) = false := beq_eq_false_iff_ne.mpr (fun he => hk he.symm)
      rw [hhead, List.lookup_cons, hbe]
      exact ih hrest

lemma lookup_map_replace_ne {k k' : Nat} {u : ℚ} (hne : k' ≠ k) :
    ∀ (m : List (Nat × ℚ)),
      List.lookup k' (m.map (fun p => if p.1 = k then (k, u) else p)) = List.lookup k' m := by
  intro m
  induction m with
  | nil => rfl
  | cons p rest ih =>
    obtain ⟨k1, v1⟩ := p
    by_cases hk : k1 = k
    · subst hk
      rw [List.map_cons]
      have hhead : (if ((k1, v1) : Nat × ℚ).1 = k1 then ((k1, u) : Nat × ℚ) else (k1, v1))
          = (k1, u) := if_pos rfl
      have hbe : (k' == k1) = false := beq_eq_false_iff_ne.mpr hne
      rw [hhead, List.lookup_cons, List.lookup_cons, hbe]
      exact ih
    · rw [List.map_cons]
      have hhead : (if ((k1, v1) : Nat × ℚ).1 = k then ((k, u) : Nat × ℚ) else (k1, v1))
          = (k1, v1) := if_neg hk
      rw [hhead, List.lookup_cons, List.lookup_cons]
      cases k' == k1
      · exact ih
      · rfl

lemma lookup_mapBump_self (m : List (Nat × ℚ)) (k : Nat) (v : ℚ) :
    List.lookup k (mapBump m k v) = some ((List.lookup k m).getD 0 + v) := by
  unfold mapBump
  cases hany : m.any (fun p => p.1 = k) with
  | true =>
    simp only [hany, if_true]
    exact lookup_map_replace_self hany
  | false =>
    simp only [hany, Bool.false_eq_true, if_false]
    have hall : ∀ p ∈ m, p.1 ≠ k := by
      intro p hp hpk
      have : m.any (fun p => p.1 = k) = true := by
        refine List.any_eq_true.mpr ⟨p, hp, by simp [hpk]⟩
      rw [this] at hany
      cases hany
    exact lookup_append_single_self (lookup_eq_none_of_keys_ne hall)

lemma lookup_mapBump_ne (m : List (Nat × ℚ)) (k k' : Nat) (v : ℚ) (h : k' ≠ k) :
    List.lookup k' (mapBump m k v) = List.lookup k' m := by
  unfold mapBump
  cases hany : m.any (fun p => p.1 = k) with
  | true =>
    simp only [hany, if_true]
    exact lookup_map_replace_ne h m
  | false =>
    simp only [hany, Bool.false_eq_true, if_false]
    exact lookup_append_single_ne h m

lemma lookup_foldl_mapBump (v : ℚ) (k : Nat) :
    ∀ (ks : List Nat) (m : List (Nat × ℚ)),
      List.lookup k (ks.foldl (fun m j => mapBump m j v) m)
        = if k ∈ ks then some ((List.lookup k m).getD 0 + (ks.count k) * v)
          else List.lookup k m := by
  intro ks
  induction ks with
  | nil => intro m; simp
  | cons j js ih =>
    intro m
    simp only [List.foldl_cons]
    rw [ih]
    by_cases hkj : k = j
    · subst hkj
      rw [lookup_mapBump_self]
      by_cases hmem : k ∈ js
      · rw [if_pos hmem, if_pos (List.mem_cons_self _ _), List.count_cons_self]
        simp only [Option.getD_some]
        congr 1
        push_cast
        ring
      · rw [if_neg hmem, if_pos (List.mem_cons_self _ _), List.count_cons_self]
        rw [List.count_eq_zero.mpr hmem]
        congr 1
        push_cast
        ring
    · rw [lookup_mapBump_ne _ _ _ _ hkj]
      have hmemiff : k ∈ j :: js ↔ k ∈ js := by
        simp [List.mem_cons, hkj]
      have hcnt : (j :: js).count k = js.count k := List.count_cons_of_ne hkj _
      by_cases hmem : k ∈ js
      · rw [if_pos hmem, if_pos (hmemiff.mpr hmem), hcnt]
      · rw [if_neg hmem, if_neg (fun hc => hmem (hmemiff.mp hc))]

lemma foldl_mapBump_range (v : ℚ) (n : Nat) (st : Nat) (m : List (Nat × ℚ)) :
    (List.range n).foldl (fun m h => mapBump m (st + h * 3600000) v) m
      = ((List.range n).map (fun h => st + h * 3600000)).foldl
          (fun m j => mapBump m j v) m := by
  rw [List.foldl_map]

lemma lookup_distEntry (m : List (Nat × ℚ)) (e : TSEntry) (k : Nat) :
    List.lookup k (distEntry m e)
      = if coversEntry e k then some ((List.lookup k m).getD 0 + contribOf e k)
        else List.lookup k m := by
  simp only [distEntry]
  rw [foldl_mapBump_range, lookup_foldl_mapBump]
  have hmem : (k ∈ (List.range (parseDurationHours e.duration)).map
      (fun h => e.start + h * 3600000)) ↔ coversEntry e k = true := by
    simp only [List.mem_map, List.mem_range, coversEntry, Bool.and_eq_true,
      decide_eq_true_eq]
    constructor
    · rintro ⟨h, hh, rfl⟩
      refine ⟨⟨Nat.le_add_right _ _, ?_⟩, ?_⟩ <;> omega
    · rintro ⟨⟨hle, hmod⟩, hdiv⟩
      exact ⟨(k - e.start) / 3600000, hdiv, by omega⟩
  have hinj : Function.Injective (fun h : Nat => e.start + h * 3600000) := by
    intro a b hab
    have hab2 : e.start + a * 3600000 = e.start + b * 3600000 := hab
    omega
  have hnd : ((List.range (parseDurationHours e.duration)).map
      (fun h => e.start + h * 3600000)).Nodup :=
    (List.nodup_range _).map hinj
  by_cases hc : coversEntry e k = true
  · rw [if_pos hc, if_pos (hmem.mpr hc)]
    rw [List.count_eq_one_of_mem hnd (hmem.mpr hc)]
    simp [contribOf, hc]
  · rw [if_neg hc, if_neg (fun hm => hc (hmem.mp hm))]

lemma lookup_foldl_distEntry :
    ∀ (vs : List TSEntry) (m : List (Nat × ℚ)) (k : Nat),
      List.lookup k (vs.foldl distEntry m)
        = if vs.any (fun e => coversEntry e k) then
            some ((List.lookup k m).getD 0 + (vs.map (fun e => contribOf e k)).sum)
          else List.lookup k m := by
  intro vs
  induction vs with
  | nil => intro m k; simp
  | cons e es ih =>
    intro m k
    simp only [List.foldl_cons]
    rw [ih]
    have hl := lookup_distEntry m e k
    by_cases hc : coversEntry e k = true
    · rw [if_pos hc] at hl
      have hcons : (e :: es).any (fun e => coversEntry e k) = true := by
        simp [List.any_cons, hc]
      by_cases hany : es.any (fun e => coversEntry e k) = true
      · rw [if_pos hany, if_pos hcons, hl]
        simp only [Option.getD_some, List.map_cons, List.sum_cons]
        congr 1
        ring
      · rw [if_neg hany, if_pos hcons, hl]
        have hzero : (es.map (fun e => contribOf e k)).sum = 0 := by
          refine List.sum_eq_zero ?_
          intro x hx
          rcases List.mem_map.mp hx with ⟨e', he', rfl⟩
          have hce' : coversEntry e' k = false := by
            by_contra hcc
            have : es.any (fun e => coversEntry e k) = true :=
              List.any_eq_true.mpr ⟨e', he', by simpa using hcc⟩
            exact hany this
          simp [contribOf, hce']
        simp only [List.map_cons, List.sum_cons, hzero]
        congr 1
        ring
    · rw [if_neg hc] at hl
      rw [hl]
      have hcons : (e :: es).any (fun e => coversEntry e k) = es.any (fun e => coversEntry e k) := by
        simp [List.any_cons, hc]
      have hcontrib : contribOf e k = 0 := by simp [contribOf, hc]
      rw [hcons]
      simp only [List.map_cons, List.sum_cons, hcontrib, zero_add]

/-- Value of the distributed map at any key: the summed contributions
of the entries covering it, absent when no entry covers it. -/
lemma lookup_distributeTimeSeries (vs : List TSEntry) (k : Nat) :
    List.lookup k (distributeTimeSeries (some vs))
      = if vs.any (fun e => coversEntry e k) then
          some ((vs.map (fun e => contribOf e k)).sum)
        else none := by
  show List.lookup k (vs.foldl distEntry []) = _
  rw [lookup_foldl_distEntry]
  simp

lemma sumVals_cons (p : Nat × ℚ) (m : List (Nat × ℚ)) :
    sumVals (p :: m) = p.2 + sumVals m := by
  simp [sumVals]

lemma sumVals_map_replace {k : Nat} {u w : ℚ} :
    ∀ {m : List (Nat × ℚ)}, (m.map (fun p => p.1)).Nodup →
      List.lookup k m = some w →
      sumVals (m.map (fun p => if p.1 = k then (k, u) else p)) + w = sumVals m + u := by
  intro m
  induction m with
  | nil => intro _ hw; simp at hw
  | cons p rest ih =>
    intro hnd hw
    obtain ⟨k1, v1⟩ := p
    rw [List.map_cons, List.nodup_cons] at hnd
    by_cases hk : k1 = k
    · subst hk
      rw [List.lookup_cons_self] at hw
      have hw1 : w = v1 := by injection hw.symm
      subst hw1
      rw [List.map_cons]
      have hhead : (if ((k1, w) : Nat × ℚ).1 = k1 then ((k1, u) : Nat × ℚ) else (k1, w))
          = (k1, u) := if_pos rfl
      rw [hhead]
      have hrest : rest.map (fun p => if p.1 = k1 then (k1, u) else p) = rest := by
        have hcong : ∀ p ∈ rest, (if p.1 = k1 then ((k1, u) : Nat × ℚ) else p) = id p := by
          intro p hp
          have hpk : p.1 ≠ k1 := by
            intro hc
            exact hnd.1 (List.mem_map.mpr ⟨p, hp, hc⟩)
          simp [hpk]
        rw [List.map_congr_left hcong, List.map_id]
      rw [hrest, sumVals_cons, sumVals_cons]
      ring
    · have hbe : (k == k1) = false := beq_eq_false_iff_ne.mpr (fun he => hk he.symm)
      rw [List.lookup_cons, hbe] at hw
      rw [List.map_cons]
      have hhead : (if ((k1, v1) : Nat × ℚ).1 = k then ((k, u) : Nat × ℚ) else (k1, v1))
          = (k1, v1) := if_neg hk
      rw [hhead, sumVals_cons, sumVals_cons]
      have := ih hnd.2 hw
      linarith

lemma keys_mapBump (m : List (Nat × ℚ)) (k : Nat) (v : ℚ) :
    (mapBump m k v).map (fun p => p.1)
      = if m.any (fun p => p.1 = k) then m.map (fun p => p.1)
        else m.map (fun p => p.1) ++ [k] := by
  unfold mapBump
  cases hany : m.any (fun p => p.1 = k) with
  | true =>
    simp only [hany, if_true]
    rw [List.map_map]
    refine List.map_congr_left ?_
    intro p _
    by_cases hpk : p.1 = k
    · simp [hpk]
    · simp [hpk]
  | false =>
    simp only [hany, Bool.false_eq_true, if_false, List.map_append, List.map_cons,
      List.map_nil]

lemma nodup_keys_mapBump {m : List (Nat × ℚ)} (k : Nat) (v : ℚ)
    (hnd : (m.map (fun p => p.1)).Nodup) :
    ((mapBump m k v).map (fun p => p.1)).Nodup := by
  rw [keys_mapBump]
  cases hany : m.any (fun p => p.1 = k) with
  | true => simpa using hnd
  | false =>
    simp only [Bool.false_eq_true, if_false]
    rw [List.nodup_append]
    refine ⟨hnd, List.nodup_singleton _, ?_⟩
    intro a ha hamem
    have hak : a = k := by simpa using hamem
    rcases List.mem_map.mp ha with ⟨p, hp, hpk⟩
    have : m.any (fun p => p.1 = k) = true :=
      List.any_eq_true.mpr ⟨p, hp, by simp [hpk, hak]⟩
    rw [this] at hany
    cases hany

lemma sumVals_mapBump (m : List (Nat × ℚ)) (k : Nat) (v : ℚ)
    (hnd : (m.map (fun p => p.1)).Nodup) :
    sumVals (mapBump m k v) = sumVals m + v := by
  unfold mapBump
  cases hany : m.any (fun p => p.1 = k) with
  | true =>
    simp only [hany, if_true]
    have hsome : (List.lookup k m).isSome := by
      rw [List.lookup_isSome_iff]
      rcases List.any_eq_true.mp hany with ⟨p, hp, hpk⟩
      exact ⟨p, hp, by simp at hpk; simp [hpk]⟩
    obtain ⟨w, hw⟩ := Option.isSome_iff_exists.mp hsome
    rw [hw]
    simp only [Option.getD_some]
    have := @sumVals_map_replace k (w + v) w m hnd hw
    linarith
  | false =>
    simp only [hany, Bool.false_eq_true, if_false]
    have hall : ∀ p ∈ m, p.1 ≠ k := by
      intro p hp hpk
      have : m.any (fun p => p.1 = k) = true :=
        List.any_eq_true.mpr ⟨p, hp, by simp [hpk]⟩
      rw [this] at hany
      cases hany
    rw [lookup_eq_none_of_keys_ne hall]
    simp [sumVals, List.map_append]

lemma sumVals_foldl_mapBump (v : ℚ) :
    ∀ (ks : List Nat) (m : List (Nat × ℚ)), (m.map (fun p => p.1)).Nodup →
      sumVals (ks.foldl (fun m j => mapBump m j v) m) = sumVals m + ks.length * v
        ∧ (((ks.foldl (fun m j => mapBump m j v) m)).map (fun p => p.1)).Nodup := by
  intro ks
  induction ks with
  | nil => intro m hnd; exact ⟨by simp, hnd⟩
  | cons j js ih =>
    intro m hnd
    simp only [List.foldl_cons]
    have hnd2 := nodup_keys_mapBump j v hnd
    obtain ⟨hsum, hnd3⟩ := ih (mapBump m j v) hnd2
    refine ⟨?_, hnd3⟩
    rw [hsum, sumVals_mapBump m j v hnd]
    simp only [List.length_cons]
    push_cast
    ring

lemma sumVals_distEntry (m : List (Nat × ℚ)) (e : TSEntry)
    (hnd : (m.map (fun p => p.1)).Nodup) :
    sumVals (distEntry m e)
        = sumVals m + (parseDurationHours e.duration : ℚ)
            * ((e.value.getD 0) / (parseDurationHours e.duration : ℚ))
      ∧ ((distEntry m e).map (fun p => p.1)).Nodup := by
  simp only [distEntry]
  rw [foldl_mapBump_range]
  obtain ⟨hsum, hnd2⟩ := sumVals_foldl_mapBump
    ((e.value.getD 0) / (parseDurationHours e.duration : ℚ))
    ((List.range (parseDurationHours e.duration)).map (fun h => e.start + h * 3600000))
    m hnd
  refine ⟨?_, hnd2⟩
  rw [hsum]
  simp [List.length_map, List.length_range]

lemma sumVals_foldl_distEntry :
    ∀ (vs : List TSEntry) (m : List (Nat × ℚ)), (m.map (fun p => p.1)).Nodup →
      (∀ e ∈ vs, 0 < parseDurationHours e.duration) →
      sumVals (vs.foldl distEntry m) = sumVals m + (vs.map (fun e => e.value.getD 0)).sum := by
  intro vs
  induction vs with
  | nil => intro m _ _; simp
  | cons e es ih =>
    intro m hnd hpos
    simp only [List.foldl_cons]
    obtain ⟨hsum, hnd2⟩ := sumVals_distEntry m e hnd
    rw [ih (distEntry m e) hnd2 (fun e' he' => hpos e' (List.mem_cons.mpr (Or.inr he')))]
    rw [hsum]
    have hne : ((parseDurationHours e.duration : ℚ)) ≠ 0 := by
      have := hpos e (List.mem_cons_self _ _)
      exact_mod_cast Nat.pos_iff_ne_zero.mp this
    rw [mul_div_cancel₀ _ hne]
    simp only [List.map_cons, List.sum_cons]
    ring

/-- Total preservation: the distributed map's values sum to the sum of
the entries' values, provided every entry spans at least one hour. -/
lemma sumVals_distributeTimeSeries (vs : List TSEntry)
    (hpos : ∀ e ∈ vs, 0 < parseDurationHours e.duration) :
    sumVals (distributeTimeSeries (some vs)) = (vs.map (fun e => e.value.getD 0)).sum := by
  show sumVals (vs.foldl distEntry []) = _
  rw [sumVals_foldl_distEntry vs [] (by simp) hpos]
  simp [sumVals]

/-! ### Lemmas about the slot grid -/

lemma getD_range_map {β : Type} (f : Nat → β) (n i : Nat) (d : β) (h : i < n) :
    ((List.range n).map f).getD i d = f i := by
  rw [List.getD_eq_getElem?_getD, List.getElem?_map, List.getElem?_range h]
  rfl

lemma slotMs_eq : HOURS_PER_SLOT * 60 * 60 * 1000 = 14400000 := rfl

lemma buildSlot_startTime (ps : List HourlyRecord) (ss i : Nat) :
    (buildSlot ps ss i).startTime = ss + i * 14400000 := rfl

lemma mem_buildSlot_periods (ps : List HourlyRecord) (ss i : Nat) (p : HourlyRecord) :
    p ∈ (buildSlot ps ss i).periods
      ↔ p ∈ ps ∧ ss + i * 14400000 ≤ p.startTime
          ∧ p.startTime < ss + i * 14400000 + 14400000 := by
  simp only [buildSlot, slotMs_eq]
  rw [List.mem_filter]
  simp [and_assoc]

lemma groupIntoSlots_cons (p0 : HourlyRecord) (rest : List HourlyRecord) :
    groupIntoSlots (p0 :: rest)
      = (List.range TOTAL_SLOTS).map
          (buildSlot (p0 :: rest)
            (setHoursZeroed p0.startTime
              (getHoursOfMs p0.startTime / HOURS_PER_SLOT * HOURS_PER_SLOT))) := rfl

/-- C1: for every non-empty hourly record sequence, `groupIntoSlots`
produces exactly 30 slots; slot 0 starts on the first record's calendar
day with its hour-of-day rounded down to the nearest multiple of 4 and
minutes/seconds zeroed; slot `i` starts exactly `i` × 4 hours later for
`i < 30`; and a record lies in slot `i` iff its start timestamp lies in
the half-open window `[slotStart i, slotStart i + 4h)`. -/
theorem groupIntoSlots_grid (periods : List HourlyRecord) (p0 : HourlyRecord)
    (rest : List HourlyRecord) (hp : periods = p0 :: rest) :
    (groupIntoSlots periods).length = 30
    ∧ ((groupIntoSlots periods).getD 0 defSlot).startTime % 3600000 = 0
    ∧ ((groupIntoSlots periods).getD 0 defSlot).startTime / 86400000
        = p0.startTime / 86400000
    ∧ getHoursOfMs ((groupIntoSlots periods).getD 0 defSlot).startTime
        = getHoursOfMs p0.startTime / 4 * 4
    ∧ ∀ i, i < 30 →
        ((groupIntoSlots periods).getD i defSlot).startTime
          = ((groupIntoSlots periods).getD 0 defSlot).startTime + i * 14400000
        ∧ ∀ p, p ∈ ((groupIntoSlots periods).getD i defSlot).periods
            ↔ p ∈ periods
              ∧ ((groupIntoSlots periods).getD i defSlot).startTime ≤ p.startTime
              ∧ p.startTime
                  < ((groupIntoSlots periods).getD i defSlot).startTime + 14400000 := by
  subst hp
  rw [groupIntoSlots_cons]
  set A := setHoursZeroed p0.startTime
    (getHoursOfMs p0.startTime / HOURS_PER_SLOT * HOURS_PER_SLOT) with hA
  have hget : ∀ i, i < 30 →
      ((List.range TOTAL_SLOTS).map (buildSlot (p0 :: rest) A)).getD i defSlot
        = buildSlot (p0 :: rest) A i := by
    intro i hi
    exact getD_range_map _ _ i _ hi
  have h0 : ((List.range TOTAL_SLOTS).map (buildSlot (p0 :: rest) A)).getD 0 defSlot
      = buildSlot (p0 :: rest) A 0 := hget 0 (by omega)
  have h0s : (buildSlot (p0 :: rest) A 0).startTime = A := by
    rw [buildSlot_startTime]
    omega
  have hAprops : A % 3600000 = 0 ∧ A / 86400000 = p0.startTime / 86400000
      ∧ A % 86400000 / 3600000 = p0.startTime % 86400000 / 3600000 / 4 * 4 := by
    rw [hA]
    unfold setHoursZeroed getHoursOfMs msPerDay msPerHour HOURS_PER_SLOT
    omega
  refine ⟨by simp [TOTAL_SLOTS, SLOTS_PER_DAY, DAYS_TO_SHOW], ?_, ?_, ?_, ?_⟩
  · rw [h0, h0s]; exact hAprops.1
  · rw [h0, h0s]; exact hAprops.2.1
  · rw [h0, h0s]
    show A % msPerDay / msPerHour = getHoursOfMs p0.startTime / 4 * 4
    unfold getHoursOfMs msPerDay msPerHour
    exact hAprops.2.2
  · intro i hi
    rw [hget i hi, h0, h0s, buildSlot_startTime]
    refine ⟨rfl, ?_⟩
    intro p
    rw [mem_buildSlot_periods]

/-- Witness for C1 at a single record starting at 05:00 of day 0. -/
theorem groupIntoSlots_grid_witness :
    (groupIntoSlots [(⟨18000000, none, none, none, none, none, none, none⟩ : HourlyRecord)]).length = 30
    ∧ ((groupIntoSlots [(⟨18000000, none, none, none, none, none, none, none⟩ : HourlyRecord)]).getD 5 defSlot).startTime
        = ((groupIntoSlots [(⟨18000000, none, none, none, none, none, none, none⟩ : HourlyRecord)]).getD 0 defSlot).startTime
            + 5 * 14400000 := by
  have h := groupIntoSlots_grid
    [⟨18000000, none, none, none, none, none, none, none⟩]
    ⟨18000000, none, none, none, none, none, none, none⟩ [] rfl
  exact ⟨h.1, (h.2.2.2.2 5 (by omega)).1⟩

/-- C3: when every non-null extracted value in a slot is a plain
number, the aggregate is the arithmetic sum under sum-aggregation and
the arithmetic mean otherwise, over the non-null values only; an empty
or all-null sequence yields null; snowfall `[2,0,3,0]` sums to 5 and
temperatures `[30,32,34,36]` average to 33. -/
theorem aggregateValues_numeric (values : List JSVal) (m : Option String)
    (h2 : ∀ v ∈ values, v = JSVal.null ∨ v = JSVal.undef ∨ ∃ q, v = JSVal.num q) :
    (∀ q0 qs, numsOf values = q0 :: qs →
        aggregateValues values (some "sum") = JSVal.num (numsOf values).sum
        ∧ (m ≠ some "sum" →
            aggregateValues values m
              = JSVal.num ((numsOf values).sum / ((numsOf values).length : ℚ))))
    ∧ (numsOf values = [] → aggregateValues values m = JSVal.null)
    ∧ aggregateValues [JSVal.num 2, JSVal.num 0, JSVal.num 3, JSVal.num 0] (some "sum")
        = JSVal.num 5
    ∧ aggregateValues [JSVal.num 30, JSVal.num 32, JSVal.num 34, JSVal.num 36] none
        = JSVal.num 33 := by
  refine ⟨?_, ?_, ?_, ?_⟩
  · intro q0 qs hq
    exact ⟨agg_num_sum values h2 q0 qs hq,
      fun hm => agg_num_avg values m h2 q0 qs hq hm⟩
  · intro hq
    apply agg_of_all_null
    rw [filter_keep_of_nums values h2, hq]
    rfl
  · have h2x : ∀ v ∈ [JSVal.num 2, JSVal.num 0, JSVal.num 3, JSVal.num 0],
        v = JSVal.null ∨ v = JSVal.undef ∨ ∃ q, v = JSVal.num q := by
      intro v hv
      simp only [List.mem_cons, List.not_mem_nil, or_false] at hv
      rcases hv with rfl | rfl | rfl | rfl <;> exact Or.inr (Or.inr ⟨_, rfl⟩)
    rw [agg_num_sum _ h2x 2 [0, 3, 0] rfl]
    have hq : numsOf [JSVal.num 2, JSVal.num 0, JSVal.num 3, JSVal.num 0]
        = [2, 0, 3, 0] := rfl
    rw [hq]
    norm_num [List.sum_cons, List.sum_nil]
  · have h2y : ∀ v ∈ [JSVal.num 30, JSVal.num 32, JSVal.num 34, JSVal.num 36],
        v = JSVal.null ∨ v = JSVal.undef ∨ ∃ q, v = JSVal.num q := by
      intro v hv
      simp only [List.mem_cons, List.not_mem_nil, or_false] at hv
      rcases hv with rfl | rfl | rfl | rfl <;> exact Or.inr (Or.inr ⟨_, rfl⟩)
    rw [agg_num_avg _ none h2y 30 [32, 34, 36] rfl (by simp)]
    have hq : numsOf [JSVal.num 30, JSVal.num 32, JSVal.num 34, JSVal.num 36]
        = [30, 32, 34, 36] := rfl
    rw [hq]
    norm_num [List.sum_cons, List.sum_nil]

/-- Witness for C3 at `[2, null, 3]`. -/
theorem aggregateValues_numeric_witness :
    aggregateValues [JSVal.num 2, JSVal.null, JSVal.num 3] (some "sum")
      = JSVal.num (numsOf [JSVal.num 2, JSVal.null, JSVal.num 3]).sum
    ∧ aggregateValues [JSVal.num 2, JSVal.null, JSVal.num 3] none
      = JSVal.num ((numsOf [JSVal.num 2, JSVal.null, JSVal.num 3]).sum
          / ((numsOf [JSVal.num 2, JSVal.null, JSVal.num 3]).length : ℚ)) := by
  have h2 : ∀ v ∈ [JSVal.num 2, JSVal.null, JSVal.num 3],
      v = JSVal.null ∨ v = JSVal.undef ∨ ∃ q, v = JSVal.num q := by
    intro v hv
    simp only [List.mem_cons, List.not_mem_nil, or_false] at hv
    rcases hv with rfl | rfl | rfl
    · exact Or.inr (Or.inr ⟨2, rfl⟩)
    · exact Or.inl rfl
    · exact Or.inr (Or.inr ⟨3, rfl⟩)
  have h := aggregateValues_numeric [JSVal.num 2, JSVal.null, JSVal.num 3] none h2
  have hp := h.1 2 [3] rfl
  exact ⟨hp.1, hp.2 (by simp)⟩

/-- C7: with a non-wind first non-null value and at least one
non-numeric value, the aggregate is the mode of the raw sequence: a
most-frequent value, ties broken by first occurrence in input order;
`["Snow","Rain","Snow"]` gives "Snow" and the tie `["Rain","Snow"]`
gives "Rain". -/
theorem aggregateValues_mode_fallback (values : List JSVal) (m : Option String)
    (v0 : JSVal) (rest : List JSVal) (h : values.filter keepV = v0 :: rest)
    (hw : isWindLike v0 = false)
    (w0 : JSVal) (hw0 : w0 ∈ v0 :: rest) (hw0n : isNumber w0 = false) :
    aggregateValues values m = getMode values
    ∧ getMode values ∈ v0 :: rest
    ∧ (∀ w ∈ v0 :: rest, (v0 :: rest).count w ≤ (v0 :: rest).count (getMode values))
    ∧ (∀ w ∈ v0 :: rest, (v0 :: rest).count w = (v0 :: rest).count (getMode values) →
        (v0 :: rest).indexOf (getMode values) ≤ (v0 :: rest).indexOf w)
    ∧ aggregateValues [JSVal.str "Snow", JSVal.str "Rain", JSVal.str "Snow"] none
        = JSVal.str "Snow"
    ∧ aggregateValues [JSVal.str "Rain", JSVal.str "Snow"] none = JSVal.str "Rain" := by
  have hroute := agg_mode values m v0 rest h hw w0 hw0 hw0n
  have hspec := getMode_spec values v0 rest h
  exact ⟨hroute, hspec.1, hspec.2.1, hspec.2.2, by decide, by decide⟩

/-- Witness for C7 at the tie `["Rain","Snow"]`. -/
theorem aggregateValues_mode_fallback_witness :
    aggregateValues [JSVal.str "Rain", JSVal.str "Snow"] none
      = getMode [JSVal.str "Rain", JSVal.str "Snow"]
    ∧ getMode [JSVal.str "Rain", JSVal.str "Snow"]
        ∈ [JSVal.str "Rain", JSVal.str "Snow"] := by
  have h := aggregateValues_mode_fallback [JSVal.str "Rain", JSVal.str "Snow"] none
    (JSVal.str "Rain") [JSVal.str "Snow"] (by decide) (by decide)
    (JSVal.str "Rain") (by decide) (by decide)
  exact ⟨h.1, h.2.1⟩

/-- C10: `aggregateValues` selects its branch by the first non-null
element alone — when that element is a wind object, the whole sequence
is reduced by the wind rule regardless of the aggregation mode, so a
mixed sequence never reaches the numeric or mode fallback; on the
mixed example the non-wind members poison the speed average to NaN
while the direction mode is still computed. -/
theorem aggregateValues_wind_first (values : List JSVal) (v0 : JSVal) (rest : List JSVal)
    (h : values.filter keepV = v0 :: rest) (hw : isWindLike v0 = true) :
    (∀ m : Option String, aggregateValues values m = windAggregate (v0 :: rest))
    ∧ aggregateValues
        [JSVal.wind (JSVal.num 10) (JSVal.str "N"), JSVal.num 7, JSVal.str "x",
          JSVal.wind (JSVal.num 20) (JSVal.str "N")] (some "sum")
      = JSVal.wind JSVal.nan (JSVal.str "N") := by
  refine ⟨fun m => agg_wind values m v0 rest h hw, ?_⟩
  have hlist : ([JSVal.wind (JSVal.num 10) (JSVal.str "N"), JSVal.num 7, JSVal.str "x",
      JSVal.wind (JSVal.num 20) (JSVal.str "N")]).filter keepV
      = [JSVal.wind (JSVal.num 10) (JSVal.str "N"), JSVal.num 7, JSVal.str "x",
        JSVal.wind (JSVal.num 20) (JSVal.str "N")] := by decide
  rw [agg_wind _ _ _ _ hlist rfl]
  decide

/-- Witness for C10 at the mixed sequence headed by a wind object. -/
theorem aggregateValues_wind_first_witness :
    aggregateValues
        [JSVal.wind (JSVal.num 10) (JSVal.str "N"), JSVal.num 7, JSVal.str "x",
          JSVal.wind (JSVal.num 20) (JSVal.str "N")] none
      = windAggregate
          [JSVal.wind (JSVal.num 10) (JSVal.str "N"), JSVal.num 7, JSVal.str "x",
            JSVal.wind (JSVal.num 20) (JSVal.str "N")] := by
  have h := aggregateValues_wind_first
    [JSVal.wind (JSVal.num 10) (JSVal.str "N"), JSVal.num 7, JSVal.str "x",
      JSVal.wind (JSVal.num 20) (JSVal.str "N")]
    (JSVal.wind (JSVal.num 10) (JSVal.str "N"))
    [JSVal.num 7, JSVal.str "x", JSVal.wind (JSVal.num 20) (JSVal.str "N")]
    (by decide) rfl
  exact h.1 none

/-- C5 counterexample: invoked on the empty record sequence the core
yields an empty slot list (0 slots), not the 30-slot grid. -/
theorem transformForecast_empty_counterexample :
    (transformForecast [] (getMetrics "imperial")).slots.length = 0
    ∧ (transformForecast [] (getMetrics "imperial")).slots.length ≠ 30 := by
  constructor
  · rfl
  · intro hc
    rw [show (transformForecast [] (getMetrics "imperial")).slots.length = 0 from rfl] at hc
    omega

/-- C5 amended: an empty record sequence yields an empty slot grid with
no per-metric entries; independently, every registry metric maps an
empty value sequence to a null aggregate and formats null as the
placeholder "—", so a slot with no matching records produces the
null/placeholder cell. -/
theorem transformForecast_empty_amended :
    (∀ metrics : List Metric,
        transformForecast [] metrics
          = { slots := [], metricData := metrics.map (fun m => (m.id, [])) })
    ∧ (∀ u : String, ∀ i, i < (getMetrics u).length →
        aggregateValues [] ((getMetrics u).getD i defMetric).aggregate = JSVal.null
        ∧ ((getMetrics u).getD i defMetric).format JSVal.null = "—")
    ∧ (∀ u : String, ∀ i, ∀ slot : Slot, i < (getMetrics u).length → slot.periods = [] →
        extractMetricValues [slot] ((getMetrics u).getD i defMetric)
          = [{ label := slot.label, value := JSVal.null, formattedValue := "—" }]) := by
  refine ⟨?_, ?_, ?_⟩
  · intro metrics
    rfl
  · intro u i hi
    have hlen : (getMetrics u).length = 5 := rfl
    rw [hlen] at hi
    interval_cases i <;> exact ⟨rfl, rfl⟩
  · intro u i slot hi hps
    have hlen : (getMetrics u).length = 5 := rfl
    rw [hlen] at hi
    simp only [extractMetricValues, List.map_cons, List.map_nil, hps]
    interval_cases i <;> rfl

/-- Witness for the amended C5 at the imperial temperature metric and
an empty slot. -/
theorem transformForecast_empty_amended_witness :
    transformForecast [] (getMetrics "imperial")
      = { slots := [],
          metricData := (getMetrics "imperial").map (fun m => (m.id, [])) }
    ∧ aggregateValues [] ((getMetrics "imperial").getD 0 defMetric).aggregate = JSVal.null
    ∧ ((getMetrics "imperial").getD 0 defMetric).format JSVal.null = "—"
    ∧ extractMetricValues [defSlot] ((getMetrics "imperial").getD 0 defMetric)
      = [{ label := defSlot.label, value := JSVal.null, formattedValue := "—" }] := by
  have h := transformForecast_empty_amended
  have h2 := h.2.1 "imperial" 0 (by decide)
  exact ⟨h.1 (getMetrics "imperial"), h2.1, h2.2,
    h.2.2 "imperial" 0 defSlot (by decide) rfl⟩

/-- C8: the snow-level extraction maps an absent temperature to null,
`t ≤ 32` to 0, and otherwise to `5000 + (t − 32) × 200` clamped to
`[0, 10000]` feet (40 °F gives 6600, any `t ≥ 57` gives exactly
10000); the per-slot aggregate of the extracted values is their
arithmetic mean. -/
theorem snowLevel_metric (u : String) :
    (metricAt u 4).id = "snow-level"
    ∧ (metricAt u 4).aggregate = none
    ∧ (∀ r : HourlyRecord, r.temperature = none → (metricAt u 4).extract r = JSVal.null)
    ∧ (∀ r : HourlyRecord, ∀ t : ℚ, r.temperature = some t → t ≤ 32 →
        (metricAt u 4).extract r = JSVal.num 0)
    ∧ (∀ r : HourlyRecord, ∀ t : ℚ, r.temperature = some t → 32 < t →
        (metricAt u 4).extract r
          = JSVal.num (max 0 (min 10000 (5000 + (t - 32) * 200))))
    ∧ (∀ t : ℚ, 0 ≤ max 0 (min 10000 (5000 + (t - 32) * 200))
        ∧ max 0 (min 10000 (5000 + (t - 32) * 200)) ≤ 10000)
    ∧ (∀ r : HourlyRecord, r.temperature = some 40 →
        (metricAt u 4).extract r = JSVal.num 6600)
    ∧ (∀ r : HourlyRecord, ∀ t : ℚ, r.temperature = some t → 57 ≤ t →
        (metricAt u 4).extract r = JSVal.num 10000)
    ∧ (∀ records : List HourlyRecord, ∀ q0 qs,
        numsOf (records.map (metricAt u 4).extract) = q0 :: qs →
        aggregateValues (records.map (metricAt u 4).extract) (metricAt u 4).aggregate
          = JSVal.num ((numsOf (records.map (metricAt u 4).extract)).sum
              / ((numsOf (records.map (metricAt u 4).extract)).length : ℚ))) := by
  have hext : (metricAt u 4).extract = fun period => snowLevelExtract period.temperature :=
    rfl
  have hagg : (metricAt u 4).aggregate = none := rfl
  refine ⟨rfl, rfl, ?_, ?_, ?_, ?_, ?_, ?_, ?_⟩
  · intro r hr
    rw [hext]
    simp [snowLevelExtract, hr]
  · intro r t hr ht
    rw [hext]
    simp only [snowLevelExtract, hr]
    rw [if_pos ht]
  · intro r t hr ht
    rw [hext]
    simp only [snowLevelExtract, hr]
    rw [if_neg (not_le.mpr ht)]
  · intro t
    constructor
    · exact le_max_left 0 _
    · refine max_le (by norm_num) (min_le_left _ _)
  · intro r hr
    rw [hext]
    simp only [snowLevelExtract, hr]
    rw [if_neg (by norm_num)]
    norm_num
  · intro r t hr ht
    rw [hext]
    simp only [snowLevelExtract, hr]
    rw [if_neg (by push_neg; linarith)]
    rw [min_eq_left (by linarith)]
    rw [max_eq_right (by norm_num)]
  · intro records q0 qs hq
    have h2 : ∀ v ∈ records.map (metricAt u 4).extract,
        v = JSVal.null ∨ v = JSVal.undef ∨ ∃ q, v = JSVal.num q := by
      intro v hv
      rcases List.mem_map.mp hv with ⟨r, _, rfl⟩
      rw [hext]
      cases hr : r.temperature with
      | none => exact Or.inl (by simp [snowLevelExtract, hr])
      | some t =>
        refine Or.inr (Or.inr ?_)
        by_cases ht : t ≤ 32
        · exact ⟨0, by simp [snowLevelExtract, hr, ht]⟩
        · exact ⟨max 0 (min 10000 (5000 + (t - 32) * 200)),
            by simp [snowLevelExtract, hr, ht]⟩
    rw [hagg]
    exact agg_num_avg _ none h2 q0 qs hq (by simp)

/-- Witness for C8: a 40 °F record extracts to 6600 ft and a one-record
slot averages to its own level. -/
theorem snowLevel_metric_witness :
    (metricAt "imperial" 4).extract ⟨0, some 40, none, none, none, none, none, none⟩
      = JSVal.num 6600
    ∧ aggregateValues
        ([(⟨0, some 40, none, none, none, none, none, none⟩ : HourlyRecord)].map
          (metricAt "imperial" 4).extract)
        (metricAt "imperial" 4).aggregate
      = JSVal.num
          ((numsOf ([(⟨0, some 40, none, none, none, none, none, none⟩ : HourlyRecord)].map
              (metricAt "imperial" 4).extract)).sum
            / ((numsOf ([(⟨0, some 40, none, none, none, none, none, none⟩ : HourlyRecord)].map
              (metricAt "imperial" 4).extract)).length : ℚ)) := by
  have h := snowLevel_metric "imperial"
  refine ⟨h.2.2.2.2.2.2.1 _ rfl, ?_⟩
  refine h.2.2.2.2.2.2.2.2 _ 6600 [] ?_
  have h40 : (metricAt "imperial" 4).extract ⟨0, some 40, none, none, none, none, none, none⟩
      = JSVal.num 6600 := h.2.2.2.2.2.2.1 _ rfl
  simp [numsOf, h40]

/-- C9: unit conversions are exactly °C = (°F−32)×5/9, km/h =
mph×1.60934, m = ft×0.3048, applied only inside the format functions:
the imperial and metric temperature formats round the same stored
rational, related by the conversion formula; extraction and
aggregation are identical across unit systems, so the raw aggregates
of `extractMetricValues` coincide and switching unit systems only
re-formats, never re-aggregates. -/
theorem format_time_conversion (f q x : ℚ) :
    fToC f = (f - 32) * 5 / 9
    ∧ mphToKmh q = q * 1.60934
    ∧ ftToM x = x * 0.3048
    ∧ (metricAt "imperial" 0).format (JSVal.num f) = toString (jsRound f) ++ "°"
    ∧ (metricAt "metric" 0).format (JSVal.num f)
        = toString (jsRound ((f - 32) * 5 / 9)) ++ "°"
    ∧ (∀ i : Nat, (metricAt "metric" i).extract = (metricAt "imperial" i).extract)
    ∧ (∀ i : Nat, (metricAt "metric" i).aggregate = (metricAt "imperial" i).aggregate)
    ∧ (∀ slots : List Slot, ∀ i : Nat,
        (extractMetricValues slots (metricAt "metric" i)).map (fun e => e.value)
          = (extractMetricValues slots (metricAt "imperial" i)).map (fun e => e.value)) := by
  have hext : ∀ i : Nat, (metricAt "metric" i).extract = (metricAt "imperial" i).extract := by
    intro i
    match i with
    | 0 => rfl
    | 1 => rfl
    | 2 => rfl
    | 3 => rfl
    | 4 => rfl
    | (n + 5) => rfl
  have hagg : ∀ i : Nat, (metricAt "metric" i).aggregate = (metricAt "imperial" i).aggregate := by
    intro i
    match i with
    | 0 => rfl
    | 1 => rfl
    | 2 => rfl
    | 3 => rfl
    | 4 => rfl
    | (n + 5) => rfl
  refine ⟨rfl, rfl, rfl, rfl, rfl, hext, hagg, ?_⟩
  intro slots i
  simp only [extractMetricValues, List.map_map]
  refine List.map_congr_left ?_
  intro slot _
  simp only [Function.comp_apply]
  rw [hext i, hagg i]

/-- C2: `distributeTimeSeries` maps hour-key `k` to the sum of the
contributions `value/hours` of every entry whose hour grid covers `k`
(overlaps summed, never overwritten), absent keys meaning no entry
covers them; for positive spans the map's total equals the sum of the
entries' values (absent values count 0); absent or empty input yields
the empty map; an unparseable span string parses to 1 hour; and the
entry `{start 0, "PT3H", 9}` spreads 3 to each of the keys 0, 1h, 2h. -/
theorem distributeTimeSeries_spec (vs : List TSEntry) (k : Nat) :
    (List.lookup k (distributeTimeSeries (some vs))
        = if vs.any (fun e => coversEntry e k) then
            some ((vs.map (fun e => contribOf e k)).sum)
          else none)
    ∧ ((∀ e ∈ vs, 0 < parseDurationHours e.duration) →
        sumVals (distributeTimeSeries (some vs))
          = (vs.map (fun e => e.value.getD 0)).sum)
    ∧ distributeTimeSeries none = []
    ∧ distributeTimeSeries (some []) = []
    ∧ parseDurationHours "P1D" = 1
    ∧ parseDurationHours "PT6H" = 6
    ∧ distributeTimeSeries (some [⟨0, "PT3H", some 9⟩])
        = [(0, 3), (3600000, 3), (7200000, 3)] := by
  refine ⟨lookup_distributeTimeSeries vs k,
    fun hpos => sumVals_distributeTimeSeries vs hpos, rfl, rfl, by decide, by decide, ?_⟩
  show distEntry [] ⟨0, "PT3H", some 9⟩ = [(0, 3), (3600000, 3), (7200000, 3)]
  have h3 : parseDurationHours "PT3H" = 3 := by decide
  simp only [distEntry, h3]
  norm_num
  rw [show List.range 3 = [0, 1, 2] from rfl]
  simp only [List.foldl_cons, List.foldl_nil]
  norm_num [mapBump, List.lookup_cons, List.lookup_nil, List.any_cons, List.any_nil]
  have e1 : ((3600000 : Nat) == 0) = false := by decide
  have e2 : ((7200000 : Nat) == 0) = false := by decide
  have e3 : ((7200000 : Nat) == 3600000) = false := by decide
  simp [e1, e2, e3]

/-- Witness for C2 at two overlapping entries sharing the hour key
3600000. -/
theorem distributeTimeSeries_spec_witness :
    (List.lookup 3600000 (distributeTimeSeries
        (some [⟨0, "PT2H", some 4⟩, ⟨3600000, "PT2H", some 6⟩]))
      = if ([⟨0, "PT2H", some 4⟩, (⟨3600000, "PT2H", some 6⟩ : TSEntry)]).any
            (fun e => coversEntry e 3600000) then
          some ((([⟨0, "PT2H", some 4⟩, (⟨3600000, "PT2H", some 6⟩ : TSEntry)]).map
            (fun e => contribOf e 3600000)).sum)
        else none)
    ∧ sumVals (distributeTimeSeries
        (some [⟨0, "PT2H", some 4⟩, ⟨3600000, "PT2H", some 6⟩]))
      = (([⟨0, "PT2H", some 4⟩, (⟨3600000, "PT2H", some 6⟩ : TSEntry)]).map
          (fun e => e.value.getD 0)).sum := by
  have h := distributeTimeSeries_spec
    [⟨0, "PT2H", some 4⟩, ⟨3600000, "PT2H", some 6⟩] 3600000
  refine ⟨h.1, h.2.1 ?_⟩
  intro e he
  simp only [List.mem_cons, List.not_mem_nil, or_false] at he
  rcases he with rfl | rfl <;> decide

lemma getD_map_lt {α β : Type} (f : α → β) (l : List α) (i : Nat) (d : β) (d' : α)
    (h : i < l.length) : (l.map f).getD i d = f (l.getD i d') := by
  rw [List.getD_eq_getElem?_getD, List.getElem?_map, List.getElem?_eq_getElem h]
  rw [List.getD_eq_getElem l d' h]
  rfl

/-- C6 counterexample: an interval entry starting at 00:30 keys the
map at 1800000 — a key that is not on an hour boundary — so the merge
lookup at the hour-aligned record timestamp 0 misses and defaults to
0: neither the distributor nor the merge truncates to the hour. -/
theorem no_truncation_counterexample :
    distributeTimeSeries (some [⟨1800000, "PT1H", some 6⟩]) = [(1800000, 6)]
    ∧ (1800000 : Nat) % 3600000 ≠ 0
    ∧ List.lookup 0 (distributeTimeSeries (some [⟨1800000, "PT1H", some 6⟩])) = none
    ∧ ((mergePrecipData [⟨0, none, none, none, none, none, none, none⟩]
        ⟨some [⟨1800000, "PT1H", some 6⟩], none⟩).getD 0 defRecord).snowfallAmount
      = some 0 := by
  have hmap : distributeTimeSeries (some [⟨1800000, "PT1H", some 6⟩]) = [(1800000, 6)] := by
    show distEntry [] ⟨1800000, "PT1H", some 6⟩ = [(1800000, 6)]
    have h1 : parseDurationHours "PT1H" = 1 := by decide
    simp only [distEntry, h1]
    rw [show List.range 1 = [0] from rfl]
    simp only [List.foldl_cons, List.foldl_nil]
    norm_num [mapBump]
  have hlk : List.lookup 0 [((1800000 : Nat), (6 : ℚ))] = none := by
    rw [List.lookup_cons]
    have hbe : ((0 : Nat) == 1800000) = false := by decide
    rw [hbe]
    rfl
  refine ⟨hmap, by decide, by rw [hmap]; exact hlk, ?_⟩
  simp only [mergePrecipData, List.map_cons, List.map_nil, List.getD]
  rw [hmap]
  simp [hlk]

/-- C6 amended: neither the distributor nor the merge truncates
timestamps — the distributor keys the map at the raw entry start plus
whole-hour offsets (a key exists exactly when some entry's hour grid
covers it), and the merge sets each record's amount fields from the
maps at the record's exact start timestamp, defaulting to 0 — so hour
alignment holds only when the inputs themselves are hour-aligned. -/
theorem merge_exact_alignment (periods : List HourlyRecord) (gd : GridData)
    (vs : List TSEntry) (k : Nat) :
    ((List.lookup k (distributeTimeSeries (some vs))).isSome
        ↔ ∃ e ∈ vs, coversEntry e k = true)
    ∧ (mergePrecipData periods gd).length = periods.length
    ∧ (∀ i, i < periods.length →
        (mergePrecipData periods gd).getD i defRecord
          = { periods.getD i defRecord with
              snowfallAmount := some ((List.lookup (periods.getD i defRecord).startTime
                  (distributeTimeSeries gd.snowfallAmount)).getD 0)
              precipAmount := some ((List.lookup (periods.getD i defRecord).startTime
                  (distributeTimeSeries gd.quantitativePrecipitation)).getD 0) }) := by
  refine ⟨?_, by simp [mergePrecipData], ?_⟩
  · rw [lookup_distributeTimeSeries]
    by_cases hany : vs.any (fun e => coversEntry e k) = true
    · rw [if_pos hany]
      simp only [Option.isSome_some, true_iff]
      rcases List.any_eq_true.mp hany with ⟨e, he, hce⟩
      exact ⟨e, he, hce⟩
    · rw [if_neg hany]
      constructor
      · intro hcontra
        simp at hcontra
      · rintro ⟨e, he, hce⟩
        exact absurd (List.any_eq_true.mpr ⟨e, he, hce⟩) hany
  · intro i hi
    simp only [mergePrecipData]
    rw [getD_map_lt _ periods i defRecord defRecord hi]

/-- Witness for the amended C6 at a single hour-aligned record and an
empty series. -/
theorem merge_exact_alignment_witness :
    ((List.lookup 0 (distributeTimeSeries (some ([] : List TSEntry)))).isSome
        ↔ ∃ e ∈ ([] : List TSEntry), coversEntry e 0 = true)
    ∧ (mergePrecipData [defRecord] ⟨none, none⟩).getD 0 defRecord
      = { [defRecord].getD 0 defRecord with
          snowfallAmount := some ((List.lookup ([defRecord].getD 0 defRecord).startTime
              (distributeTimeSeries (none : Option (List TSEntry)))).getD 0)
          precipAmount := some ((List.lookup ([defRecord].getD 0 defRecord).startTime
              (distributeTimeSeries (none : Option (List TSEntry)))).getD 0) } := by
  have h := merge_exact_alignment [defRecord] ⟨none, none⟩ [] 0
  exact ⟨h.1, h.2.2 0 (by decide)⟩

/-- C4: for every unit system the canonical registry (modelled from the
spec, see `getMetricsCanonical`) exposes the seven required metrics in
order; its wind extraction pairs the leading-integer parse of the
speed text with the record's wind-direction text, so slot aggregation
of wind values yields the mode of the directions; and the snow- and
rain-amount metrics extract the merged millimeter fields (converted to
the unit system's native unit) and declare sum aggregation. -/
theorem metric_registry_canonical (u : String) :
    (getMetricsCanonical u).map (fun m => m.id)
      = ["temperature", "wind", "precipitation-chance", "conditions",
         "snow-level", "snow-amount", "rain-amount"]
    ∧ (∀ r : HourlyRecord,
        (metricCanonAt u 1).extract r
          = JSVal.wind (parseWindSpeed r.windSpeed)
              (match r.windDirection with
               | none => JSVal.null
               | some d => if d = "" then JSVal.null else JSVal.str d))
    ∧ (∀ records : List HourlyRecord, ∀ r0 rs, records = r0 :: rs →
        getDirection (aggregateValues (records.map (metricCanonAt u 1).extract)
            (metricCanonAt u 1).aggregate)
          = getMode (((records.map (metricCanonAt u 1).extract).map getDirection).filter
              notNullV))
    ∧ (metricCanonAt u 5).id = "snow-amount"
    ∧ (metricCanonAt u 5).aggregate = some "sum"
    ∧ (∀ r : HourlyRecord, ∀ mm : ℚ, r.snowfallAmount = some mm →
        (metricCanonAt u 5).extract r
          = JSVal.num (if u == "metric" then mm else mm / 25.4))
    ∧ (∀ r : HourlyRecord, r.snowfallAmount = none →
        (metricCanonAt u 5).extract r = JSVal.null)
    ∧ (metricCanonAt u 6).id = "rain-amount"
    ∧ (metricCanonAt u 6).aggregate = some "sum"
    ∧ (∀ r : HourlyRecord, ∀ mm : ℚ, r.precipAmount = some mm →
        (metricCanonAt u 6).extract r
          = JSVal.num (if u == "metric" then mm else mm / 25.4)) := by
  refine ⟨rfl, fun r => rfl, ?_, rfl, rfl, ?_, ?_, rfl, rfl, ?_⟩
  · intro records r0 rs hrec
    subst hrec
    have hall : ∀ a ∈ (r0 :: rs).map (metricCanonAt u 1).extract, keepV a = true := by
      intro a ha
      rcases List.mem_map.mp ha with ⟨r, _, rfl⟩
      rfl
    have hfe : ((r0 :: rs).map (metricCanonAt u 1).extract).filter keepV
        = (metricCanonAt u 1).extract r0 :: rs.map (metricCanonAt u 1).extract := by
      rw [List.filter_eq_self.mpr hall, List.map_cons]
    have hw : isWindLike ((metricCanonAt u 1).extract r0) = true := rfl
    rw [agg_wind _ _ _ _ hfe hw]
    rfl
  · intro r mm hr
    show (match r.snowfallAmount with
      | none => JSVal.null
      | some mm => JSVal.num (if u == "metric" then mm else mm / 25.4)) = _
    rw [hr]
  · intro r hr
    show (match r.snowfallAmount with
      | none => JSVal.null
      | some mm => JSVal.num (if u == "metric" then mm else mm / 25.4)) = _
    rw [hr]
  · intro r mm hr
    show (match r.precipAmount with
      | none => JSVal.null
      | some mm => JSVal.num (if u == "metric" then mm else mm / 25.4)) = _
    rw [hr]

/-- Witness for C4 at the imperial system and a one-record wind slot. -/
theorem metric_registry_canonical_witness :
    (getMetricsCanonical "imperial").map (fun m => m.id)
      = ["temperature", "wind", "precipitation-chance", "conditions",
         "snow-level", "snow-amount", "rain-amount"]
    ∧ getDirection (aggregateValues ([defRecord].map (metricCanonAt "imperial" 1).extract)
          (metricCanonAt "imperial" 1).aggregate)
      = getMode ((([defRecord].map (metricCanonAt "imperial" 1).extract).map
          getDirection).filter notNullV)
    ∧ (metricCanonAt "imperial" 5).extract
        ⟨0, none, none, none, none, none, some 12, none⟩
      = JSVal.num (if ("imperial" == "metric") then 12 else 12 / 25.4) := by
  have h := metric_registry_canonical "imperial"
  exact ⟨h.1, h.2.2.1 [defRecord] defRecord [] rfl, h.2.2.2.2.2.1 _ 12 rfl⟩
